import Mathlib

/-!
Verification of the kuyachobot lookup-cache bot against its natural-language
specification.  The development shallowly embeds the relevant Python code of
`src/main.py` (twitch variant) and `src/sc.py` (discord variant):

* Python `str` is modelled as `List Char` (`Str`); `str.strip`, `str.lower`,
  `str.upper` are modelled for the ASCII character range.
* Python dicts (insertion ordered) are modelled as association lists with
  in-place update (`alistSet`) and first-match lookup (`alistLookup`).
* `"….".split(", ")` is modelled by `splitCS`, and `re.split(r'[,\n\r]+', s)`
  by `reSplit`, both following Python semantics exactly.
* A worksheet read (`sheet.get_all_values()`) that raises is modelled by
  `Worksheet.fetch = none`; a workbook-level failure of
  `self.gc.open(...)`/`wb.worksheets()` by passing `none` to `syncUpdate`.
* The external fuzzy scorer `thefuzz.fuzz.token_set_ratio` is kept abstract
  (a parameter `scorer : Str → Str → Nat`); `thefuzz.process.extract` is a
  stable descending sort by score followed by `take limit`, which is its
  documented behaviour (`heapq.nlargest` = stable `sorted(..., reverse)`).
* Python's `list(set(xs))` enumerates a hash set; its order is unspecified
  (string hashing is seed-randomised), so it is modelled relationally: any
  function `f` with `IsPySetEnum f` (duplicate-free, same members) is a
  legitimate behaviour, and `pySetRev` is one concrete such behaviour.
-/

namespace Kuyacho

/-- Python `str`, modelled as a list of characters. -/
abbrev Str := List Char

/-- ASCII whitespace, as stripped by Python `str.strip()`. -/
def pyIsSpace (c : Char) : Bool :=
  c = ' ' || c = '\t' || c = '\n' || c = '\r' || c = '\x0b' || c = '\x0c'

/-- Python `s.strip()` (ASCII whitespace). -/
def pyStrip (s : Str) : Str :=
  ((s.dropWhile pyIsSpace).reverse.dropWhile pyIsSpace).reverse

/-- Python `s.lower()` (ASCII letters; all cells in the claims are ASCII). -/
def pyLower (s : Str) : Str := s.map Char.toLower

/-- Python `s.upper()` (ASCII letters). -/
def pyUpper (s : Str) : Str := s.map Char.toUpper

/-- Python `s.split(", ")`: greedy left-to-right split on the two-character
separator.  `splitCS [] = [[]]` since `"".split(", ") == ['']`. -/
def splitCS : Str → List Str
  | [] => [[]]
  | [c] => [[c]]
  | c :: d :: rest =>
    if c = ',' ∧ d = ' ' then
      [] :: splitCS rest
    else
      match splitCS (d :: rest) with
      | [] => [[c]]
      | s :: ss => (c :: s) :: ss

/-- Python `", ".join(l)`. -/
def joinCS : List Str → Str
  | [] => []
  | [x] => x
  | x :: xs => x ++ ',' :: ' ' :: joinCS xs

/-- Lookup in a Python dict modelled as an association list. -/
def alistLookup {β : Type} : List (Str × β) → Str → Option β
  | [], _ => none
  | p :: rest, k => if p.1 = k then some p.2 else alistLookup rest k

/-- Assignment `d[k] = v` on a Python dict: updates in place if the key is
present, otherwise appends (Python dicts preserve insertion order). -/
def alistSet {β : Type} : List (Str × β) → Str → β → List (Str × β)
  | [], k, v => [(k, v)]
  | p :: rest, k, v => if p.1 = k then (k, v) :: rest else p :: alistSet rest k v

/-- The normalized key a raw cell contributes, if any: `cell.strip()`,
skipped when falsy, else lowercased (`main.py` lines 118–120). -/
def cellKey (cell : Str) : Option Str :=
  let item := pyStrip cell
  if item = [] then none else some (pyLower item)

/-- The spreadsheet item index. Keys are normalized item names; values are
`", "`-joined location strings, exactly as the Python code stores them. -/
abbrev Cache := List (Str × Str)

/-- One cell step of `_sync_update`'s inner loop (`main.py` lines 117–126 /
`sc.py` lines 125–134): strip, skip empty, lowercase; merge the sheet title
into the `", "`-joined value, appending only when the split does not already
contain it. -/
def addCell (locationName : Str) (c : Cache) (cell : Str) : Cache :=
  match cellKey cell with
  | none => c
  | some key =>
    match alistLookup c key with
    | some v =>
      if locationName ∈ splitCS v then c
      else alistSet c key (v ++ ',' :: ' ' :: locationName)
    | none => alistSet c key locationName

/-- A worksheet: `fetch = none` models `sheet.get_all_values()` raising
(the per-sheet `except` logs and skips the sheet). -/
structure Worksheet where
  title : Str
  fetch : Option (List (List Str))
deriving DecidableEq

/-- The excluded sheet title `"ACNH_Items"` (`main.py` line 107). -/
def acnhTitle : Str := ['A', 'C', 'N', 'H', '_', 'I', 't', 'e', 'm', 's']

/-- Processing of one worksheet inside `_sync_update` (`main.py` lines
106–133): skip the sentinel sheet, skip a failed or empty read, otherwise
fold `addCell` over all cells of all rows after the header row and count the
sheet as scanned. -/
def scanSheet (acc : Cache × Nat) (ws : Worksheet) : Cache × Nat :=
  if ws.title = acnhTitle then acc
  else
    match ws.fetch with
    | none => acc
    | some rows =>
      if rows = [] then acc
      else
        ((rows.drop 1).foldl (fun c row => row.foldl (fun c2 cell => addCell ws.title c2 cell) c) acc.1,
         acc.2 + 1)

/-- The item cache built by one successful workbook scan (`temp_cache` in
`_sync_update`). -/
def buildCache (sheets : List Worksheet) : Cache :=
  (sheets.foldl scanSheet ([], 0)).1

/-- `_sync_update`'s effect on `self.cache`: a workbook-level fetch failure
(`wb = none`) is caught by the outer `except` and leaves the cache untouched;
a successful workbook open replaces the cache with the freshly built
`temp_cache`, whatever per-sheet failures occurred. -/
def syncUpdate (old : Cache) (wb : Option (List Worksheet)) : Cache :=
  match wb with
  | none => old
  | some sheets => buildCache sheets

/-- `TreasureBot.check_cooldown` (`main.py` lines 152–158), time modelled as
`Int`.  Returns the boolean result together with the updated cooldown map:
a blocked attempt returns early and leaves the map unchanged. -/
def check_cooldown (cooldowns : List (Str × Int)) (userId : Str) (now : Int)
    (cooldownSec : Int) : Bool × List (Str × Int) :=
  match alistLookup cooldowns userId with
  | some last =>
    if now - last < cooldownSec then (true, cooldowns)
    else (false, alistSet cooldowns userId now)
  | none => (false, alistSet cooldowns userId now)

/-- Separator class of `re.split(r'[,\n\r]+', s)`. -/
def isVSep (c : Char) : Bool := c = ',' || c = '\n' || c = '\r'

/-- Worker for `reSplit`; the flag records whether we are inside a run of
separator characters (the regex `+` collapses such runs). -/
def reSplitAux : Bool → Str → List Str
  | _, [] => [[]]
  | inSep, c :: rest =>
    if isVSep c then
      if inSep then reSplitAux true rest
      else [] :: reSplitAux true rest
    else
      match reSplitAux false rest with
      | [] => [[c]]
      | s :: ss => (c :: s) :: ss

/-- Python `re.split(r'[,\n\r]+', s)` (`main.py` line 176). -/
def reSplit (s : Str) : List Str := reSplitAux false s

/-- One villager name step of `get_villagers` (`main.py` lines 178–191):
strip, skip empty, lowercase, discard keys longer than 30 characters, then
the same `", "`-merge as the sheet scan. -/
def addVillagerName (locationName : Str) (data : Cache) (rawName : Str) : Cache :=
  let clean := pyStrip rawName
  if clean = [] then data
  else
    let key := pyLower clean
    if 30 < key.length then data
    else
      match alistLookup data key with
      | some v =>
        if locationName ∈ splitCS v then data
        else alistSet data key (v ++ ',' :: ' ' :: locationName)
      | none => alistSet data key locationName

/-- The villager map built from the directories the `os.walk` visits, each
given as (directory base name, decoded `Villagers.txt` content). -/
def buildVillagers (dirs : List (Str × Str)) : Cache :=
  dirs.foldl (fun data p => (reSplit p.2).foldl (fun d n => addVillagerName p.1 d n) data) []

/-- Outcome of the filesystem walk inside `get_villagers`: either it
completes having yielded `dirs`, or it raises after yielding `dirs`
(exceptions happen at `os.walk`/`open`/`read`, i.e. between directories, so
the accumulated `data` is exactly the build over the processed prefix). -/
inductive ScanOutcome where
  | ok (dirs : List (Str × Str))
  | failAfter (dirs : List (Str × Str))
deriving DecidableEq

/-- Directories a scan outcome yielded before completing or raising. -/
def scanDirs : ScanOutcome → List (Str × Str)
  | .ok dirs => dirs
  | .failAfter dirs => dirs

/-- Python falsiness of the `VILLAGERS_DIR` value (`None` or `""`). -/
def rootFalsy : Option Str → Bool
  | none => true
  | some s => s.isEmpty

/-- `TreasureBot.get_villagers` (`main.py` lines 160–196): returns `{}` when
the root is unset/empty or does not exist; otherwise builds from the walk,
and — because the `except` branch returns `data` — a raising walk still
returns the dictionary accumulated so far. -/
def get_villagers (root : Option Str) (rootExists : Bool) (scan : ScanOutcome) : Cache :=
  if rootFalsy root || !rootExists then []
  else buildVillagers (scanDirs scan)

/-! ### The fuzzy-suggestion pipeline

`thefuzz.process.extract(query, keys, limit, scorer)` scores every key and
returns the `limit` best (key, score) pairs; per its documentation it is
`sorted(..., reverse=True)[:limit]`, a stable descending sort by score.  The
scorer (`fuzz.token_set_ratio`, an external library function) stays an
abstract parameter. -/

/-- Stable descending insertion by score: the new element goes before the
first strictly smaller score, hence after every earlier tie. -/
def insertDesc (p : Str × Nat) : List (Str × Nat) → List (Str × Nat)
  | [] => [p]
  | q :: l => if p.2 < q.2 then q :: insertDesc p l else p :: q :: l

/-- Stable descending sort by score (`foldr` insertion sort). -/
def sortDesc (l : List (Str × Nat)) : List (Str × Nat) := l.foldr insertDesc []

/-- Candidate keys with their scores, in first-seen order. -/
def scored (scorer : Str → Str → Nat) (q : Str) (keys : List Str) : List (Str × Nat) :=
  keys.map (fun k => (k, scorer q k))

/-- `thefuzz.process.extract(q, keys, limit, scorer)`. -/
def extract (scorer : Str → Str → Nat) (q : Str) (keys : List Str) (limit : Nat) :
    List (Str × Nat) :=
  (sortDesc (scored scorer q keys)).take limit

/-- `sc.py` lines 183–190: `[m[0] for m in matches if m[1] > 75]`. -/
def suggestSc (scorer : Str → Str → Nat) (q : Str) (keys : List Str) : List Str :=
  ((extract scorer q keys 5).filter (fun m => 75 < m.2)).map Prod.fst

/-- A function behaving like Python's `list(set(xs))` for strings: the output
is duplicate-free and has exactly the members of `xs`.  The enumeration
order of a CPython `set` of strings is hash-table order and string hashing is
seed-randomised, so any such function is a legitimate behaviour. -/
def IsPySetEnum (f : List Str → List Str) : Prop :=
  ∀ xs : List Str, (f xs).Nodup ∧ ∀ a, a ∈ f xs ↔ a ∈ xs

/-- One concrete legitimate behaviour of `list(set(xs))`: first-occurrence
deduplication followed by reversal. -/
def pySetRev (xs : List Str) : List Str := xs.dedup.reverse

/-- `main.py` lines 233–240:
`list(set([m[0] for m in matches if m[1] > 75]))`, with the set enumeration
supplied as `setEnum`. -/
def suggestMain (setEnum : List Str → List Str) (scorer : Str → Str → Nat)
    (q : Str) (keys : List Str) : List Str :=
  setEnum (((extract scorer q keys 5).filter (fun m => 75 < m.2)).map Prod.fst)

/-! ### The two `find` command handlers -/

/-- Replies the twitch `find` handler (`main.py` lines 199–254) can produce.
`silent` is the reply-less early return on cooldown.  `found` carries the
deduplicated, uppercased location list the reply is formatted from;
`suggest` carries the suggestion list. -/
inductive MainReply where
  | usage
  | silent
  | found (term : Str) (locations : List Str)
  | suggest (term : Str) (suggestions : List Str)
  | notFound (term : Str)
deriving DecidableEq

/-- `TreasureBot.find` of `main.py` (lines 199–254) as a function of the bot
state: returns the reply together with the updated cooldown map.  The
villager map is recomputed on every query by `get_villagers`. -/
def mainFind (cache : Cache) (root : Option Str) (rootExists : Bool) (scan : ScanOutcome)
    (cooldowns : List (Str × Int)) (userId : Str) (now : Int)
    (setEnum : List Str → List Str) (scorer : Str → Str → Nat)
    (item : Str) : MainReply × List (Str × Int) :=
  if item = [] then (.usage, cooldowns)
  else
    let cd := check_cooldown cooldowns userId now 3
    if cd.1 then (.silent, cd.2)
    else
      let searchTerm := pyStrip (pyLower item)
      let itemHits := (alistLookup cache searchTerm).getD []
      let villagerMap := get_villagers root rootExists scan
      let villagerHits := (alistLookup villagerMap searchTerm).getD []
      let foundLocations :=
        (if itemHits ≠ [] then [itemHits] else []) ++
        (if villagerHits ≠ [] then [villagerHits] else [])
      if foundLocations ≠ [] then
        (.found searchTerm ((setEnum (splitCS (joinCS foundLocations))).map pyUpper), cd.2)
      else
        let allKeys := cache.map Prod.fst ++ villagerMap.map Prod.fst
        let valid := suggestMain setEnum scorer searchTerm allKeys
        if valid ≠ [] then (.suggest searchTerm valid, cd.2)
        else (.notFound searchTerm, cd.2)

/-- Replies the discord `find` handler (`sc.py` lines 158–201) can produce.
Unlike the twitch variant it has a dedicated loading reply. -/
inductive ScReply where
  | usage
  | loading
  | found (term : Str) (rawLocations : Str)
  | suggest (term : Str) (suggestions : List Str)
  | notFound (term : Str)
deriving DecidableEq

/-- The discord `find` handler of `sc.py` (lines 158–201) as a function of
the cache.  `item = none` models the `None` default; the per-user cooldown
is a framework decorator outside the handler body and is not part of it. -/
def scFind (cache : Cache) (scorer : Str → Str → Nat) (item : Option Str) : ScReply :=
  match item with
  | none => .usage
  | some it =>
    if it = [] then .usage
    else if cache = [] then .loading
    else
      let searchTerm := pyStrip (pyLower it)
      match alistLookup cache searchTerm with
      | some raw => .found searchTerm raw
      | none =>
        let valid := suggestSc scorer searchTerm (cache.map Prod.fst)
        if valid ≠ [] then .suggest searchTerm valid else .notFound searchTerm

/-! ### Flattening a build into a stream of (location, cell) pairs -/

/-- Concatenation of a list of lists. -/
def listFlat {α : Type} : List (List α) → List α
  | [] => []
  | l :: ls => l ++ listFlat ls

/-- The (sheet title, raw cell) pairs `_sync_update` processes, in order:
cells of every successfully fetched, non-sentinel sheet, header row dropped. -/
def buildStream : List Worksheet → List (Str × Str)
  | [] => []
  | ws :: rest =>
    (if ws.title = acnhTitle then []
     else
       match ws.fetch with
       | none => []
       | some rows => (listFlat (rows.drop 1)).map (fun cell => (ws.title, cell))) ++
    buildStream rest

/-- One stream step: `addCell` applied to a (location, cell) pair. -/
def streamStep (c : Cache) (p : Str × Str) : Cache := addCell p.1 c p.2

/-! ### Concrete inputs used in examples -/

/-- The string `"cat"`. -/
def strCat : Str := ['c', 'a', 't']

/-- The string `"X"`, a sheet title. -/
def strX : Str := ['X']

/-- The string `"Y"`, a sheet title. -/
def strY : Str := ['Y']

/-- The string `"Foo, X"`: a sheet title that contains the `", "` separator. -/
def strFooX : Str := ['F', 'o', 'o', ',', ' ', 'X']

/-- The string `"u"`, a user id. -/
def strU : Str := ['u']

/-- The string `"q"`, a query. -/
def strQ : Str := ['q']

/-- The string `"aa"`. -/
def strAA : Str := ['a', 'a']

/-- The string `"bb"`. -/
def strBB : Str := ['b', 'b']

/-- The string `"L"`, a villager directory name. -/
def strL : Str := ['L']

/-- The string `"bob"`, a villager name. -/
def strBob : Str := ['b', 'o', 'b']

/-- A 31-character name, longer than the villager length guard allows. -/
def longName : Str := List.replicate 31 'a'

/-- A worksheet whose read raises. -/
def wsFail : Worksheet := ⟨['A'], none⟩

/-- Sheet `"X"` with a header row and one data cell `"cat"`. -/
def wsX : Worksheet := ⟨strX, some [[[]], [strCat]]⟩

/-- Sheet `"Y"` with a header row and one data cell `"cat"`. -/
def wsY : Worksheet := ⟨strY, some [[[]], [strCat]]⟩

/-- Sheet titled `"Foo, X"` with a header row and one data cell `"cat"`. -/
def wsFooX : Worksheet := ⟨strFooX, some [[[]], [strCat]]⟩

/-- Sheet `"X"` whose single data cell is the 31-character `longName`. -/
def wsLong : Worksheet := ⟨strX, some [[[]], [longName]]⟩

/-- A concrete scorer used to instantiate the abstract fuzzy scorer in
examples: it gives `"aa"` score 100, `"bb"` score 80, everything else 0. -/
def cexScorer (_q k : Str) : Nat :=
  if k = strAA then 100 else if k = strBB then 80 else 0

/-- The fuzzy-suggestion claim, formalized: for every legitimate behaviour of
`list(set(...))`, every scorer, query and key universe, the twitch variant's
suggestion list contains only keys scoring strictly above 75, has at most 5
entries, no duplicates, and is presented in descending score order. -/
def C3Statement : Prop :=
  ∀ f, IsPySetEnum f → ∀ (scorer : Str → Str → Nat) (q : Str) (keys : List Str),
    (∀ s ∈ suggestMain f scorer q keys, 75 < scorer q s) ∧
    (suggestMain f scorer q keys).length ≤ 5 ∧
    (suggestMain f scorer q keys).Nodup ∧
    (suggestMain f scorer q keys).Pairwise (fun a b => scorer q b ≤ scorer q a)

/-! ### Association-list lemmas -/

theorem alistLookup_set_self {β : Type} (c : List (Str × β)) (k : Str) (v : β) :
    alistLookup (alistSet c k v) k = some v := by
  induction c with
  | nil => simp [alistSet, alistLookup]
  | cons p rest ih =>
    by_cases h : p.1 = k
    · simp [alistSet, h, alistLookup]
    · simp [alistSet, h, alistLookup, ih]

theorem alistLookup_set_ne {β : Type} (c : List (Str × β)) (k k' : Str) (v : β)
    (h : k' ≠ k) : alistLookup (alistSet c k v) k' = alistLookup c k' := by
  induction c with
  | nil =>
    simp only [alistSet, alistLookup]
    rw [if_neg (fun hh => h hh.symm)]
  | cons p rest ih =>
    by_cases hp : p.1 = k
    · simp only [alistSet, if_pos hp, alistLookup]
      rw [if_neg (fun hh => h hh.symm), if_neg (fun hh => h (hp ▸ hh).symm)]
    · simp only [alistSet, if_neg hp, alistLookup]
      by_cases hp' : p.1 = k'
      · rw [if_pos hp', if_pos hp']
      · rw [if_neg hp', if_neg hp', ih]

theorem mem_alistSet {β : Type} {c : List (Str × β)} {k : Str} {v : β} {p : Str × β}
    (h : p ∈ alistSet c k v) : p = (k, v) ∨ p ∈ c := by
  induction c with
  | nil => simpa [alistSet] using h
  | cons q rest ih =>
    by_cases hq : q.1 = k
    · rw [alistSet, if_pos hq] at h
      rcases List.mem_cons.mp h with h1 | h1
      · exact Or.inl h1
      · exact Or.inr (List.mem_cons_of_mem _ h1)
    · rw [alistSet, if_neg hq] at h
      rcases List.mem_cons.mp h with h1 | h1
      · exact Or.inr (h1 ▸ List.mem_cons_self _ _)
      · rcases ih h1 with h2 | h2
        · exact Or.inl h2
        · exact Or.inr (List.mem_cons_of_mem _ h2)

/-! ### `splitCS` lemmas -/

/-- Unfolding of `splitCS` at a list of length at least two. -/
theorem splitCS_cons2 (c d : Char) (rest : Str) :
    splitCS (c :: d :: rest) =
      if c = ',' ∧ d = ' ' then [] :: splitCS rest
      else
        match splitCS (d :: rest) with
        | [] => [[c]]
        | s :: ss => (c :: s) :: ss := rfl

theorem splitCS_ne_nil (s : Str) : splitCS s ≠ [] := by
  induction s using splitCS.induct with
  | case1 => simp [splitCS]
  | case2 c => simp [splitCS]
  | case3 c d rest h ih =>
    rw [splitCS_cons2, if_pos h]
    simp
  | case4 c d rest h hnil ih =>
    exact absurd hnil ih
  | case5 c d rest h s ss hs ih =>
    rw [splitCS_cons2, if_neg h, hs]
    simp

/-- Appending `", " ++ name` to any string appends exactly one element to its
`", "`-split, provided `name` itself contains no `", "` (equivalently, its
split is the singleton `[name]`). -/
theorem splitCS_append (name : Str) (h : splitCS name = [name]) :
    ∀ v : Str, splitCS (v ++ ',' :: ' ' :: name) = splitCS v ++ [name] := by
  intro v
  induction v using splitCS.induct with
  | case1 =>
    show splitCS (',' :: ' ' :: name) = [[]] ++ [name]
    rw [splitCS_cons2, if_pos ⟨rfl, rfl⟩, h]
    rfl
  | case2 c =>
    show splitCS (c :: ',' :: ' ' :: name) = [[c]] ++ [name]
    rw [splitCS_cons2, if_neg (by simp), splitCS_cons2, if_pos ⟨rfl, rfl⟩, h]
    rfl
  | case3 c d rest hsep ih =>
    obtain ⟨rfl, rfl⟩ := hsep
    show splitCS (',' :: ' ' :: (rest ++ ',' :: ' ' :: name)) = _ ++ [name]
    rw [splitCS_cons2, if_pos ⟨rfl, rfl⟩, ih, splitCS_cons2, if_pos ⟨rfl, rfl⟩]
    rfl
  | case4 c d rest hsep hnil ih =>
    exact absurd hnil (splitCS_ne_nil _)
  | case5 c d rest hsep s ss hs ih =>
    show splitCS (c :: d :: (rest ++ ',' :: ' ' :: name)) = _ ++ [name]
    have hd : d :: (rest ++ ',' :: ' ' :: name) = (d :: rest) ++ ',' :: ' ' :: name := rfl
    rw [splitCS_cons2, if_neg hsep, hd, ih, hs, splitCS_cons2, if_neg hsep, hs]
    rfl

/-! ### The build as a fold over the cell stream -/

theorem foldl_rows (t : Str) (rows : List (List Str)) (c : Cache) :
    rows.foldl (fun c2 row => row.foldl (fun c3 cell => addCell t c3 cell) c2) c
      = (listFlat rows).foldl (fun c3 cell => addCell t c3 cell) c := by
  induction rows generalizing c with
  | nil => rfl
  | cons r rs ih => simp [listFlat, List.foldl_append, ih]

theorem buildCache_stream_aux (sheets : List Worksheet) (c : Cache) (n : Nat) :
    (sheets.foldl scanSheet (c, n)).1 = (buildStream sheets).foldl streamStep c := by
  induction sheets generalizing c n with
  | nil => rfl
  | cons ws rest ih =>
    show (List.foldl scanSheet (scanSheet (c, n) ws) rest).1 = _
    rw [buildStream, List.foldl_append]
    rw [scanSheet]
    by_cases h1 : ws.title = acnhTitle
    · rw [if_pos h1, if_pos h1, ih]
      rfl
    · rw [if_neg h1, if_neg h1]
      cases hf : ws.fetch with
      | none => rw [ih]; rfl
      | some rows =>
        try dsimp only
        by_cases h2 : rows = []
        · subst h2
          rw [if_pos rfl, ih]
          rfl
        · rw [if_neg h2, ih, foldl_rows, List.foldl_map]
          rfl

theorem buildCache_eq_stream (sheets : List Worksheet) :
    buildCache sheets = (buildStream sheets).foldl streamStep [] :=
  buildCache_stream_aux sheets [] 0

theorem mem_buildStream_of {sheets : List Worksheet} {ws : Worksheet}
    (hws : ws ∈ sheets) (ht : ws.title ≠ acnhTitle) {rows : List (List Str)}
    (hf : ws.fetch = some rows) {cell : Str} (hc : cell ∈ listFlat (rows.drop 1)) :
    (ws.title, cell) ∈ buildStream sheets := by
  induction sheets with
  | nil => cases hws
  | cons w rest ih =>
    rw [buildStream]
    rcases List.mem_cons.mp hws with rfl | h
    · apply List.mem_append_left
      rw [if_neg ht, hf]
      exact List.mem_map_of_mem _ hc
    · exact List.mem_append_right _ (ih h)

theorem buildStream_title {sheets : List Worksheet} {p : Str × Str}
    (hp : p ∈ buildStream sheets) : ∃ ws ∈ sheets, p.1 = ws.title := by
  induction sheets with
  | nil => cases hp
  | cons w rest ih =>
    rw [buildStream] at hp
    rcases List.mem_append.mp hp with h | h
    · refine ⟨w, List.mem_cons_self _ _, ?_⟩
      by_cases h1 : w.title = acnhTitle
      · rw [if_pos h1] at h; cases h
      · rw [if_neg h1] at h
        cases hf : w.fetch with
        | none => rw [hf] at h; cases h
        | some rows =>
          rw [hf] at h
          obtain ⟨cell, _, hcell⟩ := List.mem_map.mp h
          rw [← hcell]
    · obtain ⟨ws, h1, h2⟩ := ih h
      exact ⟨ws, List.mem_cons_of_mem _ h1, h2⟩

/-! ### The merge invariant

For every key, the `", "`-split of its cache value is duplicate-free and
holds exactly the titles of the sources in which the key occurred — provided
every title is `", "`-free (`splitCS title = [title]`). -/

theorem addCell_inv (S cell : Str) (c : Cache) (Q : Str → Str → Prop)
    (hS : splitCS S = [S])
    (hsome : ∀ k v, alistLookup c k = some v →
      (splitCS v).Nodup ∧ ∀ T, T ∈ splitCS v ↔ Q k T)
    (hnone : ∀ k, alistLookup c k = none → ∀ T, ¬ Q k T) :
    (∀ k v, alistLookup (addCell S c cell) k = some v →
      (splitCS v).Nodup ∧
      ∀ T, T ∈ splitCS v ↔ (Q k T ∨ (T = S ∧ cellKey cell = some k))) ∧
    (∀ k, alistLookup (addCell S c cell) k = none →
      ∀ T, ¬ (Q k T ∨ (T = S ∧ cellKey cell = some k))) := by
  cases hck : cellKey cell with
  | none =>
    have he : addCell S c cell = c := by rw [addCell, hck]
    rw [he]
    constructor
    · intro k v h
      obtain ⟨h1, h2⟩ := hsome k v h
      refine ⟨h1, fun T => ?_⟩
      rw [h2]
      simp
    · intro k h T hT
      rcases hT with hq | ⟨_, hc2⟩
      · exact hnone k h T hq
      · cases hc2
  | some k0 =>
    cases hlk : alistLookup c k0 with
    | none =>
      have he : addCell S c cell = alistSet c k0 S := by
        rw [addCell, hck]
        try dsimp only
        rw [hlk]
      rw [he]
      constructor
      · intro k v h
        by_cases hk : k = k0
        · subst hk
          rw [alistLookup_set_self] at h
          injection h with h
          subst h
          refine ⟨by rw [hS]; exact List.nodup_singleton _, fun T => ?_⟩
          rw [hS]
          simp only [List.mem_singleton]
          constructor
          · intro hT
            exact Or.inr ⟨hT, by simp⟩
          · rintro (hq | ⟨hT, _⟩)
            · exact absurd hq (hnone k hlk T)
            · exact hT
        · rw [alistLookup_set_ne c k0 k S hk] at h
          obtain ⟨h1, h2⟩ := hsome k v h
          refine ⟨h1, fun T => ?_⟩
          rw [h2]
          constructor
          · exact Or.inl
          · rintro (hq | ⟨hT, hk2⟩)
            · exact hq
            · injection hk2 with hk2
              exact absurd hk2.symm hk
      · intro k h T hT
        by_cases hk : k = k0
        · subst hk
          rw [alistLookup_set_self] at h
          cases h
        · rw [alistLookup_set_ne c k0 k S hk] at h
          rcases hT with hq | ⟨hT, hk2⟩
          · exact hnone k h T hq
          · injection hk2 with hk2
            exact hk hk2.symm
    | some v0 =>
      by_cases hmem : S ∈ splitCS v0
      · have he : addCell S c cell = c := by
          rw [addCell, hck]
          try dsimp only
          rw [hlk]
          try dsimp only
          rw [if_pos hmem]
        rw [he]
        constructor
        · intro k v h
          obtain ⟨h1, h2⟩ := hsome k v h
          refine ⟨h1, fun T => ?_⟩
          rw [h2]
          constructor
          · exact Or.inl
          · rintro (hq | ⟨rfl, hk2⟩)
            · exact hq
            · injection hk2 with hk2
              subst hk2
              rw [hlk] at h
              injection h with h
              subst h
              exact ((hsome _ v0 hlk).2 _).mp hmem
        · intro k h T hT
          rcases hT with hq | ⟨rfl, hk2⟩
          · exact hnone k h T hq
          · injection hk2 with hk2
            subst hk2
            rw [hlk] at h
            cases h
      · have he : addCell S c cell = alistSet c k0 (v0 ++ ',' :: ' ' :: S) := by
          rw [addCell, hck]
          try dsimp only
          rw [hlk]
          try dsimp only
          rw [if_neg hmem]
        rw [he]
        have hsplit : splitCS (v0 ++ ',' :: ' ' :: S) = splitCS v0 ++ [S] :=
          splitCS_append S hS v0
        constructor
        · intro k v h
          by_cases hk : k = k0
          · subst hk
            rw [alistLookup_set_self] at h
            injection h with h
            subst h
            obtain ⟨h1, h2⟩ := hsome _ v0 hlk
            refine ⟨?_, fun T => ?_⟩
            · rw [hsplit]
              exact h1.append (List.nodup_singleton _)
                (by rw [List.disjoint_singleton]; exact hmem)
            · rw [hsplit, List.mem_append, List.mem_singleton, h2]
              constructor
              · rintro (hq | hT)
                · exact Or.inl hq
                · exact Or.inr ⟨hT, rfl⟩
              · rintro (hq | ⟨hT, _⟩)
                · exact Or.inl hq
                · exact Or.inr hT
          · rw [alistLookup_set_ne c k0 k _ hk] at h
            obtain ⟨h1, h2⟩ := hsome k v h
            refine ⟨h1, fun T => ?_⟩
            rw [h2]
            constructor
            · exact Or.inl
            · rintro (hq | ⟨hT, hk2⟩)
              · exact hq
              · injection hk2 with hk2
                exact absurd hk2.symm hk
        · intro k h T hT
          by_cases hk : k = k0
          · subst hk
            rw [alistLookup_set_self] at h
            cases h
          · rw [alistLookup_set_ne c k0 k _ hk] at h
            rcases hT with hq | ⟨hT, hk2⟩
            · exact hnone k h T hq
            · injection hk2 with hk2
              exact hk hk2.symm

theorem stream_fold_inv (stream : List (Str × Str)) :
    ∀ (c : Cache) (Q : Str → Str → Prop),
    (∀ p ∈ stream, splitCS p.1 = [p.1]) →
    (∀ k v, alistLookup c k = some v →
      (splitCS v).Nodup ∧ ∀ T, T ∈ splitCS v ↔ Q k T) →
    (∀ k, alistLookup c k = none → ∀ T, ¬ Q k T) →
    (∀ k v, alistLookup (stream.foldl streamStep c) k = some v →
      (splitCS v).Nodup ∧
      ∀ T, T ∈ splitCS v ↔ (Q k T ∨ ∃ p ∈ stream, p.1 = T ∧ cellKey p.2 = some k)) ∧
    (∀ k, alistLookup (stream.foldl streamStep c) k = none →
      ∀ T, ¬ (Q k T ∨ ∃ p ∈ stream, p.1 = T ∧ cellKey p.2 = some k)) := by
  induction stream with
  | nil =>
    intro c Q _ hsome hnone
    constructor
    · intro k v h
      obtain ⟨h1, h2⟩ := hsome k v h
      refine ⟨h1, fun T => ?_⟩
      rw [h2]
      simp
    · intro k h T hT
      rcases hT with hq | ⟨p, hp, _⟩
      · exact hnone k h T hq
      · cases hp
  | cons p rest ih =>
    intro c Q hSF hsome hnone
    obtain ⟨S, cell⟩ := p
    have hS : splitCS S = [S] := hSF (S, cell) (List.mem_cons_self _ _)
    obtain ⟨hsome', hnone'⟩ := addCell_inv S cell c Q hS hsome hnone
    have hSF' : ∀ q ∈ rest, splitCS q.1 = [q.1] :=
      fun q hq => hSF q (List.mem_cons_of_mem _ hq)
    obtain ⟨h1, h2⟩ :=
      ih (streamStep c (S, cell)) (fun k T => Q k T ∨ (T = S ∧ cellKey cell = some k))
        hSF' hsome' hnone'
    constructor
    · intro k v h
      obtain ⟨hn, hiff⟩ := h1 k v h
      refine ⟨hn, fun T => ?_⟩
      rw [hiff]
      constructor
      · rintro ((hq | ⟨hT, hck⟩) | ⟨q, hq1, hq2, hq3⟩)
        · exact Or.inl hq
        · exact Or.inr ⟨(S, cell), List.mem_cons_self _ _, hT.symm, hck⟩
        · exact Or.inr ⟨q, List.mem_cons_of_mem _ hq1, hq2, hq3⟩
      · rintro (hq | ⟨q, hq1, hq2, hq3⟩)
        · exact Or.inl (Or.inl hq)
        · rcases List.mem_cons.mp hq1 with rfl | hq1'
          · exact Or.inl (Or.inr ⟨hq2.symm, hq3⟩)
          · exact Or.inr ⟨q, hq1', hq2, hq3⟩
    · intro k h T hT
      refine h2 k h T ?_
      rcases hT with hq | ⟨q, hq1, hq2, hq3⟩
      · exact Or.inl (Or.inl hq)
      · rcases List.mem_cons.mp hq1 with rfl | hq1'
        · exact Or.inl (Or.inr ⟨hq2.symm, hq3⟩)
        · exact Or.inr ⟨q, hq1', hq2, hq3⟩

/-- The invariant of the spreadsheet build: with `", "`-free sheet titles,
every cache value splits into a duplicate-free list holding exactly the
titles of the sheets in which the key occurs, and absent keys occur in no
processed cell. -/
theorem buildCache_inv (sheets : List Worksheet)
    (hSF : ∀ ws ∈ sheets, splitCS ws.title = [ws.title]) :
    (∀ k v, alistLookup (buildCache sheets) k = some v →
      (splitCS v).Nodup ∧
      ∀ T, T ∈ splitCS v ↔ ∃ p ∈ buildStream sheets, p.1 = T ∧ cellKey p.2 = some k) ∧
    (∀ k, alistLookup (buildCache sheets) k = none →
      ∀ T, ¬ ∃ p ∈ buildStream sheets, p.1 = T ∧ cellKey p.2 = some k) := by
  have hSF' : ∀ p ∈ buildStream sheets, splitCS p.1 = [p.1] := by
    intro p hp
    obtain ⟨ws, h1, h2⟩ := buildStream_title hp
    rw [h2]
    exact hSF ws h1
  obtain ⟨h1, h2⟩ :=
    stream_fold_inv (buildStream sheets) [] (fun _ _ => False) hSF'
      (fun k v h => by cases h) (fun k _ T hT => hT)
  rw [buildCache_eq_stream]
  constructor
  · intro k v h
    obtain ⟨hn, hiff⟩ := h1 k v h
    refine ⟨hn, fun T => ?_⟩
    rw [hiff]
    simp
  · intro k h T hT
    exact h2 k h T (Or.inr hT)

/-! ### Sorting lemmas for the suggestion pipeline -/

theorem insertDesc_perm (p : Str × Nat) (l : List (Str × Nat)) :
    (insertDesc p l).Perm (p :: l) := by
  induction l with
  | nil => rfl
  | cons q rest ih =>
    rw [insertDesc]
    by_cases h : p.2 < q.2
    · rw [if_pos h]
      exact (ih.cons q).trans (List.Perm.swap p q rest)
    · rw [if_neg h]

theorem mem_insertDesc {a p : Str × Nat} {l : List (Str × Nat)} :
    a ∈ insertDesc p l ↔ a = p ∨ a ∈ l := by
  rw [(insertDesc_perm p l).mem_iff]
  simp

theorem insertDesc_pairwise (p : Str × Nat) (l : List (Str × Nat))
    (h : l.Pairwise (fun a b => b.2 ≤ a.2)) :
    (insertDesc p l).Pairwise (fun a b => b.2 ≤ a.2) := by
  induction l with
  | nil => simp [insertDesc]
  | cons q rest ih =>
    rw [List.pairwise_cons] at h
    obtain ⟨hq, hrest⟩ := h
    rw [insertDesc]
    by_cases hlt : p.2 < q.2
    · rw [if_pos hlt, List.pairwise_cons]
      refine ⟨?_, ih hrest⟩
      intro a ha
      rcases mem_insertDesc.mp ha with rfl | ha'
      · exact le_of_lt hlt
      · exact hq a ha'
    · rw [if_neg hlt, List.pairwise_cons]
      push_neg at hlt
      refine ⟨?_, List.pairwise_cons.mpr ⟨hq, hrest⟩⟩
      intro a ha
      rcases List.mem_cons.mp ha with rfl | ha'
      · exact hlt
      · exact le_trans (hq a ha') hlt

theorem sortDesc_perm (l : List (Str × Nat)) : (sortDesc l).Perm l := by
  induction l with
  | nil => rfl
  | cons x rest ih => exact (insertDesc_perm x (sortDesc rest)).trans (ih.cons x)

theorem sortDesc_pairwise (l : List (Str × Nat)) :
    (sortDesc l).Pairwise (fun a b => b.2 ≤ a.2) := by
  induction l with
  | nil => simp [sortDesc]
  | cons x rest ih => exact insertDesc_pairwise x _ ih

/-- Stability of `insertDesc`: restricted to one score, insertion prepends. -/
theorem insertDesc_filter (p : Str × Nat) (l : List (Str × Nat)) (n : Nat) :
    (insertDesc p l).filter (fun q => q.2 == n) =
      (if p.2 == n then [p] else []) ++ l.filter (fun q => q.2 == n) := by
  induction l with
  | nil =>
    rw [insertDesc]
    cases h : p.2 == n <;> simp [List.filter, h]
  | cons q rest ih =>
    rw [insertDesc]
    by_cases hlt : p.2 < q.2
    · rw [if_pos hlt, List.filter_cons, ih]
      by_cases hq : (q.2 == n) = true
      · have hqn : q.2 = n := by simpa using hq
        have hp : ¬(p.2 == n) = true := by
          simp only [beq_iff_eq]
          omega
        simp [hq, hp, List.filter_cons]
      · simp [hq, List.filter_cons]
    · rw [if_neg hlt, List.filter_cons, List.filter_cons]
      by_cases hp : (p.2 == n) = true
      · simp [hp]
      · simp [hp]

/-- Stability of the descending sort: ties keep their first-seen order, i.e.
the sublist at any one score is unchanged. -/
theorem sortDesc_filter (l : List (Str × Nat)) (n : Nat) :
    (sortDesc l).filter (fun q => q.2 == n) = l.filter (fun q => q.2 == n) := by
  induction l with
  | nil => rfl
  | cons x rest ih =>
    show (insertDesc x (sortDesc rest)).filter _ = _
    rw [insertDesc_filter, ih, List.filter_cons]
    by_cases hx : (x.2 == n) = true
    · simp [hx]
    · simp [hx]

theorem mem_scored {scorer : Str → Str → Nat} {q : Str} {keys : List Str}
    {p : Str × Nat} (h : p ∈ scored scorer q keys) :
    p.1 ∈ keys ∧ p.2 = scorer q p.1 := by
  obtain ⟨k, hk, rfl⟩ := List.mem_map.mp h
  exact ⟨hk, rfl⟩

theorem mem_extract {scorer : Str → Str → Nat} {q : Str} {keys : List Str}
    {limit : Nat} {p : Str × Nat} (h : p ∈ extract scorer q keys limit) :
    p.1 ∈ keys ∧ p.2 = scorer q p.1 := by
  have h1 : p ∈ sortDesc (scored scorer q keys) := List.mem_of_mem_take h
  exact mem_scored ((sortDesc_perm _).mem_iff.mp h1)

theorem suggestSc_mem {scorer : Str → Str → Nat} {q s : Str} {keys : List Str}
    (h : s ∈ suggestSc scorer q keys) : s ∈ keys ∧ 75 < scorer q s := by
  obtain ⟨p, hp, rfl⟩ := List.mem_map.mp h
  have h2 := List.mem_of_mem_filter hp
  have h3 : 75 < p.2 := by simpa using List.of_mem_filter hp
  obtain ⟨hkeys, hscore⟩ := mem_extract h2
  exact ⟨hkeys, hscore ▸ h3⟩

theorem suggestSc_length (scorer : Str → Str → Nat) (q : Str) (keys : List Str) :
    (suggestSc scorer q keys).length ≤ 5 := by
  rw [suggestSc, List.length_map]
  calc ((extract scorer q keys 5).filter fun m => 75 < m.2).length
      ≤ (extract scorer q keys 5).length := List.length_filter_le _ _
    _ ≤ 5 := by rw [extract]; exact List.length_take_le ..

theorem suggestSc_pairwise (scorer : Str → Str → Nat) (q : Str) (keys : List Str) :
    (suggestSc scorer q keys).Pairwise (fun a b => scorer q b ≤ scorer q a) := by
  have h1 : (extract scorer q keys 5).Pairwise (fun a b => b.2 ≤ a.2) :=
    (sortDesc_pairwise _).sublist (List.take_sublist _ _)
  have h2 : ((extract scorer q keys 5).filter fun m => 75 < m.2).Pairwise
      (fun a b => b.2 ≤ a.2) := h1.sublist (List.filter_sublist _)
  rw [suggestSc, List.pairwise_map]
  refine List.Pairwise.imp_of_mem ?_ h2
  intro a b ha hb hab
  have sa := (mem_extract (List.mem_of_mem_filter ha)).2
  have sb := (mem_extract (List.mem_of_mem_filter hb)).2
  rw [← sa, ← sb]
  exact hab

theorem suggestSc_nodup {scorer : Str → Str → Nat} {q : Str} {keys : List Str}
    (h : keys.Nodup) : (suggestSc scorer q keys).Nodup := by
  have hinj : Function.Injective (fun k => (k, scorer q k)) :=
    fun a b hab => congrArg Prod.fst hab
  have h1 : (scored scorer q keys).Nodup := h.map hinj
  have h2 : (sortDesc (scored scorer q keys)).Nodup := (sortDesc_perm _).nodup_iff.mpr h1
  have h3 : (extract scorer q keys 5).Nodup := h2.sublist (List.take_sublist _ _)
  have h4 : ((extract scorer q keys 5).filter fun m => 75 < m.2).Nodup :=
    h3.filter _
  rw [suggestSc]
  refine List.Nodup.map_on ?_ h4
  intro x hx y hy hxy
  have sx := (mem_extract (List.mem_of_mem_filter hx)).2
  have sy := (mem_extract (List.mem_of_mem_filter hy)).2
  have : x.2 = y.2 := by rw [sx, sy, hxy]
  exact Prod.ext hxy this

theorem pySetRev_spec : IsPySetEnum pySetRev := by
  intro xs
  refine ⟨List.nodup_reverse.mpr (List.nodup_dedup xs), fun a => ?_⟩
  rw [pySetRev, List.mem_reverse, List.mem_dedup]

/-! ### Key sets of the caches -/

theorem alistSet_keys_sub {β : Type} {c : List (Str × β)} {k : Str} {v : β} {a : Str}
    (ha : a ∈ (alistSet c k v).map Prod.fst) : a = k ∨ a ∈ c.map Prod.fst := by
  obtain ⟨p, hp, rfl⟩ := List.mem_map.mp ha
  rcases mem_alistSet hp with rfl | hp'
  · exact Or.inl rfl
  · exact Or.inr (List.mem_map_of_mem _ hp')

theorem alistSet_keys_nodup {β : Type} (c : List (Str × β)) (k : Str) (v : β)
    (h : (c.map Prod.fst).Nodup) : ((alistSet c k v).map Prod.fst).Nodup := by
  induction c with
  | nil => simp [alistSet]
  | cons p rest ih =>
    by_cases hp : p.1 = k
    · rw [alistSet, if_pos hp]
      simp only [List.map_cons, List.nodup_cons] at h ⊢
      exact ⟨hp ▸ h.1, h.2⟩
    · rw [alistSet, if_neg hp]
      simp only [List.map_cons, List.nodup_cons] at h ⊢
      refine ⟨?_, ih h.2⟩
      intro hmem
      rcases alistSet_keys_sub hmem with h1 | h1
      · exact hp h1
      · exact h.1 h1

theorem addCell_keys_nodup (S cell : Str) (c : Cache)
    (h : (c.map Prod.fst).Nodup) : ((addCell S c cell).map Prod.fst).Nodup := by
  cases hck : cellKey cell with
  | none =>
    rw [show addCell S c cell = c by rw [addCell, hck]]
    exact h
  | some k0 =>
    cases hlk : alistLookup c k0 with
    | none =>
      rw [show addCell S c cell = alistSet c k0 S by
        rw [addCell, hck]; (try dsimp only); rw [hlk]]
      exact alistSet_keys_nodup c k0 S h
    | some v0 =>
      by_cases hmem : S ∈ splitCS v0
      · rw [show addCell S c cell = c by
          rw [addCell, hck]; (try dsimp only); rw [hlk]; (try dsimp only); rw [if_pos hmem]]
        exact h
      · rw [show addCell S c cell = alistSet c k0 (v0 ++ ',' :: ' ' :: S) by
          rw [addCell, hck]; (try dsimp only); rw [hlk]; (try dsimp only); rw [if_neg hmem]]
        exact alistSet_keys_nodup c k0 _ h

theorem buildCache_keys_nodup (sheets : List Worksheet) :
    ((buildCache sheets).map Prod.fst).Nodup := by
  rw [buildCache_eq_stream]
  have aux : ∀ (stream : List (Str × Str)) (c : Cache), (c.map Prod.fst).Nodup →
      ((stream.foldl streamStep c).map Prod.fst).Nodup := by
    intro stream
    induction stream with
    | nil => exact fun c h => h
    | cons p rest ih => exact fun c h => ih _ (addCell_keys_nodup p.1 p.2 c h)
  exact aux _ [] (by simp)

/-! ### The villager length guard -/

theorem addVillagerName_mem {loc rawName : Str} {data : Cache} {p : Str × Str}
    (hp : p ∈ addVillagerName loc data rawName) : p ∈ data ∨ p.1.length ≤ 30 := by
  by_cases h1 : pyStrip rawName = []
  · rw [show addVillagerName loc data rawName = data by
      rw [addVillagerName]; (try dsimp only); rw [if_pos h1]] at hp
    exact Or.inl hp
  · by_cases h2 : 30 < (pyLower (pyStrip rawName)).length
    · rw [show addVillagerName loc data rawName = data by
        rw [addVillagerName]; (try dsimp only); rw [if_neg h1, if_pos h2]] at hp
      exact Or.inl hp
    · push_neg at h2
      cases hlk : alistLookup data (pyLower (pyStrip rawName)) with
      | none =>
        rw [show addVillagerName loc data rawName
            = alistSet data (pyLower (pyStrip rawName)) loc by
          rw [addVillagerName]; (try dsimp only); rw [if_neg h1]
          try dsimp only
          rw [if_neg (not_lt.mpr h2)]
          try dsimp only
          rw [hlk]] at hp
        rcases mem_alistSet hp with rfl | hp'
        · exact Or.inr h2
        · exact Or.inl hp'
      | some v0 =>
        by_cases hmem : loc ∈ splitCS v0
        · rw [show addVillagerName loc data rawName = data by
            rw [addVillagerName]; (try dsimp only); rw [if_neg h1]
            try dsimp only
            rw [if_neg (not_lt.mpr h2)]
            try dsimp only
            rw [hlk]
            try dsimp only
            rw [if_pos hmem]] at hp
          exact Or.inl hp
        · rw [show addVillagerName loc data rawName
              = alistSet data (pyLower (pyStrip rawName)) (v0 ++ ',' :: ' ' :: loc) by
            rw [addVillagerName]; (try dsimp only); rw [if_neg h1]
            try dsimp only
            rw [if_neg (not_lt.mpr h2)]
            try dsimp only
            rw [hlk]
            try dsimp only
            rw [if_neg hmem]] at hp
          rcases mem_alistSet hp with rfl | hp'
          · exact Or.inr h2
          · exact Or.inl hp'

theorem buildVillagers_length (dirs : List (Str × Str)) :
    ∀ p ∈ buildVillagers dirs, p.1.length ≤ 30 := by
  have aux2 : ∀ (names : List Str) (loc : Str) (data : Cache),
      (∀ p ∈ data, p.1.length ≤ 30) →
      ∀ p ∈ names.foldl (fun d n => addVillagerName loc d n) data, p.1.length ≤ 30 := by
    intro names
    induction names with
    | nil => exact fun loc data h => h
    | cons n rest ih =>
      intro loc data h
      apply ih
      intro p hp
      rcases addVillagerName_mem hp with h1 | h1
      · exact h p h1
      · exact h1
  have aux : ∀ (ds : List (Str × Str)) (data : Cache),
      (∀ p ∈ data, p.1.length ≤ 30) →
      ∀ p ∈ ds.foldl (fun d q => (reSplit q.2).foldl (fun d2 n => addVillagerName q.1 d2 n) d) data,
      p.1.length ≤ 30 := by
    intro ds
    induction ds with
    | nil => exact fun data h => h
    | cons q rest ih =>
      intro data h
      exact ih _ (aux2 (reSplit q.2) q.1 data h)
  exact aux dirs [] (by simp)

/-! ### Cooldown helper lemmas -/

theorem check_cooldown_blocked (cds : List (Str × Int)) (u : Str) (now s : Int)
    (h : (check_cooldown cds u now s).1 = true) :
    (check_cooldown cds u now s).2 = cds := by
  cases hlk : alistLookup cds u with
  | some last =>
    by_cases hw : now - last < s
    · rw [show check_cooldown cds u now s = (true, cds) by
        rw [check_cooldown, hlk]; (try dsimp only); rw [if_pos hw]]
    · rw [show check_cooldown cds u now s = (false, alistSet cds u now) by
        rw [check_cooldown, hlk]; (try dsimp only); rw [if_neg hw]] at h
      exact absurd h (by simp)
  | none =>
    rw [show check_cooldown cds u now s = (false, alistSet cds u now) by
      rw [check_cooldown, hlk]] at h
    exact absurd h (by simp)

theorem check_cooldown_passed (cds : List (Str × Int)) (u : Str) (now s : Int)
    (h : (check_cooldown cds u now s).1 = false) :
    alistLookup (check_cooldown cds u now s).2 u = some now := by
  cases hlk : alistLookup cds u with
  | some last =>
    by_cases hw : now - last < s
    · rw [show check_cooldown cds u now s = (true, cds) by
        rw [check_cooldown, hlk]; (try dsimp only); rw [if_pos hw]] at h
      exact absurd h (by simp)
    · rw [show check_cooldown cds u now s = (false, alistSet cds u now) by
        rw [check_cooldown, hlk]; (try dsimp only); rw [if_neg hw]]
      exact alistLookup_set_self cds u now
  | none =>
    rw [show check_cooldown cds u now s = (false, alistSet cds u now) by
      rw [check_cooldown, hlk]]
    exact alistLookup_set_self cds u now

/-- Count of an element of a duplicate-free list, for any lawful `BEq`. -/
theorem count_one_of_nodup_mem {α : Type} [BEq α] [LawfulBEq α] {l : List α} {a : α}
    (hn : l.Nodup) (ha : a ∈ l) : l.count a = 1 := by
  induction l with
  | nil => cases ha
  | cons x xs ih =>
    rw [List.count_cons]
    rcases List.mem_cons.mp ha with rfl | ha'
    · have hx : a ∉ xs := (List.nodup_cons.mp hn).1
      rw [List.count_eq_zero.mpr hx]
      simp
    · have hne : ¬x == a := by
        simp only [beq_iff_eq]
        exact fun h => (List.nodup_cons.mp hn).1 (h ▸ ha')
      rw [ih (List.nodup_cons.mp hn).2 ha']
      simp [hne]

/-- A legitimate `list(set(...))` behaviour maps `[]` to `[]`. -/
theorem IsPySetEnum_nil {f : List Str → List Str} (hf : IsPySetEnum f) : f [] = [] :=
  List.eq_nil_iff_forall_not_mem.mpr fun a ha => (List.not_mem_nil a) (((hf []).2 a).mp ha)

/-! ## The claims -/

/-- Claim C5: every key present in a built snapshot (spreadsheet or villager
build) maps to a non-empty location collection.  The `", "`-split of a value
string is never the empty list, and — under `", "`-free titles — each of its
members is the title of a source cell that produced the key, so a key only
ever comes into existence together with its first source's location name. -/
theorem C5_nonempty_locations :
    (∀ (sheets : List Worksheet) (k v : Str),
      alistLookup (buildCache sheets) k = some v → splitCS v ≠ []) ∧
    (∀ (dirs : List (Str × Str)) (k v : Str),
      alistLookup (buildVillagers dirs) k = some v → splitCS v ≠ []) ∧
    (∀ (sheets : List Worksheet) (k v : Str),
      (∀ ws ∈ sheets, splitCS ws.title = [ws.title]) →
      alistLookup (buildCache sheets) k = some v →
      ∃ T ∈ splitCS v, ∃ p ∈ buildStream sheets, p.1 = T ∧ cellKey p.2 = some k) := by
  refine ⟨fun _ _ v _ => splitCS_ne_nil v, fun _ _ v _ => splitCS_ne_nil v, ?_⟩
  intro sheets k v hSF hv
  obtain ⟨hn, hiff⟩ := (buildCache_inv sheets hSF).1 k v hv
  obtain ⟨T, hT⟩ := List.exists_mem_of_ne_nil _ (splitCS_ne_nil v)
  exact ⟨T, hT, (hiff T).mp hT⟩

/-- Witness of C5 at a concrete build: the key `"cat"` of a one-sheet build
has the non-empty location collection `["X"]`. -/
theorem C5_witness :
    splitCS strX ≠ [] ∧
    ∃ T ∈ splitCS strX, ∃ p ∈ buildStream [wsX], p.1 = T ∧ cellKey p.2 = some strCat := by
  have h1 : alistLookup (buildCache [wsX]) strCat = some strX := by decide
  refine ⟨C5_nonempty_locations.1 [wsX] strCat strX h1, ?_⟩
  exact C5_nonempty_locations.2.2 [wsX] strCat strX (by decide) h1

/-- Claim C6: the build is a function of the source data alone — building
from the same sheets starting from any two previous cache states yields
literally the same cache, rebuilding on top of a previous build changes
nothing, and the key-to-location-set mappings agree. -/
theorem C6_idempotent (old1 old2 : Cache) (sheets : List Worksheet) :
    syncUpdate old1 (some sheets) = syncUpdate old2 (some sheets) ∧
    syncUpdate (syncUpdate old1 (some sheets)) (some sheets)
      = syncUpdate old1 (some sheets) ∧
    ∀ k, (alistLookup (syncUpdate old1 (some sheets)) k).map splitCS
        = (alistLookup (syncUpdate old2 (some sheets)) k).map splitCS :=
  ⟨rfl, rfl, fun _ => rfl⟩

/-- Claim C7: the villager scan discards every normalized key longer than 30
characters (a 31-character name contributes nothing), while the spreadsheet
build imposes no length limit (a 31-character cell becomes a key). -/
theorem C7_length_guard :
    (∀ (dirs : List (Str × Str)) (p : Str × Str),
      p ∈ buildVillagers dirs → p.1.length ≤ 30) ∧
    buildVillagers [(strL, longName)] = [] ∧
    alistLookup (buildCache [wsLong]) longName = some strX ∧
    longName.length = 31 := by
  refine ⟨fun dirs p hp => buildVillagers_length dirs p hp, by decide, by decide, by decide⟩

/-- Witness of C7's guard at a concrete scan: `"bob"` survives with a key of
length at most 30. -/
theorem C7_witness :
    (strBob, strL) ∈ buildVillagers [(strL, strBob)] ∧ strBob.length ≤ 30 :=
  ⟨by decide, C7_length_guard.1 [(strL, strBob)] (strBob, strL) (by decide)⟩

/-- Claim C8 counterexample: an attempt inside the cooldown window returns
`true` and leaves the stored timestamp at its old value `0`, not the current
time `1` — the claim that every call rewrites the timestamp is false. -/
theorem C8_counterexample :
    check_cooldown [(strU, 0)] strU 1 3 = (true, [(strU, 0)]) ∧
    alistLookup [(strU, (0 : Int))] strU = some 0 ∧ (0 : Int) ≠ 1 := by
  decide

/-- Claim C8 amended: the stored timestamp is set to the current time exactly
on the attempts that pass the cooldown check (including a user's first
attempt); a blocked attempt returns early and leaves the whole map
unchanged. -/
theorem C8_amended (cds : List (Str × Int)) (u : Str) (now s : Int) :
    ((check_cooldown cds u now s).1 = false →
      alistLookup (check_cooldown cds u now s).2 u = some now) ∧
    ((check_cooldown cds u now s).1 = true →
      (check_cooldown cds u now s).2 = cds) :=
  ⟨check_cooldown_passed cds u now s, check_cooldown_blocked cds u now s⟩

/-- Witness of C8 amended: a first attempt stores the current time. -/
theorem C8_witness :
    (check_cooldown [] strU 5 3).1 = false ∧
    alistLookup (check_cooldown [] strU 5 3).2 strU = some 5 :=
  ⟨by decide, (C8_amended [] strU 5 3).1 (by decide)⟩

/-- Claim C9: the villager scan is total at its interface — it returns `[]`
when the root is unset, empty, or does not exist, and a walk that raises
after yielding some directories returns exactly what a completed walk over
those directories returns (the partial accumulation), never propagating the
exception. -/
theorem C9_total_interface (root : Option Str) (rootExists : Bool)
    (scan : ScanOutcome) (dirs : List (Str × Str)) :
    get_villagers none rootExists scan = [] ∧
    get_villagers (some []) rootExists scan = [] ∧
    get_villagers root false scan = [] ∧
    get_villagers root rootExists (.failAfter dirs)
      = get_villagers root rootExists (.ok dirs) := by
  refine ⟨rfl, rfl, ?_, rfl⟩
  rw [get_villagers]
  simp

/-- Claim C10: in the twitch `find`, the empty-input check precedes the
cooldown check — an empty query replies with the usage hint and leaves the
cooldown map untouched, while a non-empty query blocked by cooldown produces
no reply at all (and also leaves the map untouched). -/
theorem C10_empty_before_cooldown (cache : Cache) (root : Option Str)
    (rootExists : Bool) (scan : ScanOutcome) (cds : List (Str × Int)) (u : Str)
    (now : Int) (setEnum : List Str → List Str) (scorer : Str → Str → Nat) :
    mainFind cache root rootExists scan cds u now setEnum scorer [] = (.usage, cds) ∧
    ∀ item : Str, item ≠ [] → (check_cooldown cds u now 3).1 = true →
      mainFind cache root rootExists scan cds u now setEnum scorer item
        = (.silent, cds) := by
  constructor
  · rw [mainFind, if_pos rfl]
  · intro item hitem hcd
    rw [mainFind, if_neg hitem]
    (try dsimp only)
    rw [hcd, check_cooldown_blocked cds u now 3 hcd, if_pos rfl]

/-- Claim C1 counterexample: with a non-empty previous cache, a refresh whose
workbook opens but whose single worksheet read raises completes with the
cache replaced by the empty mapping — count and content do not remain as
before, and the previous snapshot is in fact replaced by an empty one
(`self.cache = temp_cache` runs unconditionally once the workbook opens). -/
theorem C1_counterexample :
    (∀ ws ∈ [wsFail], ws.fetch = none) ∧
    syncUpdate [(strCat, strX)] (some [wsFail]) = [] ∧
    [(strCat, strX)] ≠ ([] : Cache) ∧
    (syncUpdate [(strCat, strX)] (some [wsFail])).length ≠ ([(strCat, strX)] : Cache).length := by
  decide

/-- Claim C1 amended: only a workbook-level fetch failure leaves the previous
snapshot in place; when the workbook opens and every individual worksheet
read fails, the per-sheet failures are skipped and the freshly built — hence
empty — snapshot replaces the previous one. -/
theorem C1_amended (old : Cache) (sheets : List Worksheet) :
    syncUpdate old none = old ∧
    ((∀ ws ∈ sheets, ws.fetch = none) → syncUpdate old (some sheets) = []) := by
  refine ⟨rfl, fun h => ?_⟩
  show buildCache sheets = []
  rw [buildCache_eq_stream]
  have hempty : buildStream sheets = [] := by
    induction sheets with
    | nil => rfl
    | cons ws rest ih =>
      have hrest := ih fun w hw => h w (List.mem_cons_of_mem _ hw)
      rw [buildStream, hrest, List.append_nil]
      by_cases ht : ws.title = acnhTitle
      · rw [if_pos ht]
      · rw [if_neg ht, h ws (List.mem_cons_self _ _)]
  rw [hempty]
  rfl

/-- Witness of C1 amended at a concrete failed refresh. -/
theorem C1_witness :
    (∀ ws ∈ [wsFail], ws.fetch = none) ∧
    syncUpdate [(strCat, strX)] (some [wsFail]) = [] :=
  ⟨by decide, (C1_amended [(strCat, strX)] [wsFail]).2 (by decide)⟩

/-- Claim C2 counterexample: the entry merge splits the stored string on
`", "` to decide membership, so a sheet title that itself contains `", "`
breaks the claimed exactly-once property.  With `"cat"` appearing in sheet
`"X"` and in sheet `"Foo, X"`, the resulting entry's location collection is
`["X", "Foo", "X"]`: location `"X"` occurs twice and location `"Foo, X"`
zero times. -/
theorem C2_counterexample :
    strCat ∈ listFlat (([[[]], [strCat]] : List (List Str)).drop 1) ∧
    cellKey strCat = some strCat ∧
    alistLookup (buildCache [wsX, wsFooX]) strCat
      = some (strX ++ ',' :: ' ' :: strFooX) ∧
    (splitCS (strX ++ ',' :: ' ' :: strFooX)).count wsX.title = 2 ∧
    (splitCS (strX ++ ',' :: ' ' :: strFooX)).count wsFooX.title = 0 := by
  decide

/-- Claim C2 amended: provided no sheet title contains the `", "` separator,
if an item name (after trim and lowercase) appears as a raw cell of source
`A` and of source `B` (both read successfully and not the excluded sheet),
the resulting entry contains location `A` exactly once and location `B`
exactly once, however often the name repeats as a raw cell. -/
theorem C2_amended (sheets : List Worksheet) (A B : Worksheet) (k : Str)
    (hSF : ∀ ws ∈ sheets, splitCS ws.title = [ws.title])
    (hA : A ∈ sheets) (hAt : A.title ≠ acnhTitle)
    (hB : B ∈ sheets) (hBt : B.title ≠ acnhTitle)
    (rowsA : List (List Str)) (hfA : A.fetch = some rowsA)
    (cellA : Str) (hcA : cellA ∈ listFlat (rowsA.drop 1)) (hkA : cellKey cellA = some k)
    (rowsB : List (List Str)) (hfB : B.fetch = some rowsB)
    (cellB : Str) (hcB : cellB ∈ listFlat (rowsB.drop 1)) (hkB : cellKey cellB = some k) :
    ∃ v, alistLookup (buildCache sheets) k = some v ∧
      (splitCS v).count A.title = 1 ∧ (splitCS v).count B.title = 1 := by
  obtain ⟨hsome, hnone⟩ := buildCache_inv sheets hSF
  have hstreamA : (A.title, cellA) ∈ buildStream sheets :=
    mem_buildStream_of hA hAt hfA hcA
  have hstreamB : (B.title, cellB) ∈ buildStream sheets :=
    mem_buildStream_of hB hBt hfB hcB
  cases hv : alistLookup (buildCache sheets) k with
  | none =>
    exact absurd ⟨(A.title, cellA), hstreamA, rfl, hkA⟩ (hnone k hv A.title)
  | some v =>
    obtain ⟨hn, hiff⟩ := hsome k v hv
    have hmA : A.title ∈ splitCS v :=
      (hiff A.title).mpr ⟨(A.title, cellA), hstreamA, rfl, hkA⟩
    have hmB : B.title ∈ splitCS v :=
      (hiff B.title).mpr ⟨(B.title, cellB), hstreamB, rfl, hkB⟩
    exact ⟨v, rfl, count_one_of_nodup_mem hn hmA, count_one_of_nodup_mem hn hmB⟩

/-- Witness of C2 amended: `"cat"` in sheets `"X"` and `"Y"` gets each
location exactly once. -/
theorem C2_witness :
    ∃ v, alistLookup (buildCache [wsX, wsY]) strCat = some v ∧
      (splitCS v).count wsX.title = 1 ∧ (splitCS v).count wsY.title = 1 :=
  C2_amended [wsX, wsY] wsX wsY strCat (by decide) (by decide) (by decide)
    (by decide) (by decide) [[[]], [strCat]] (by decide) strCat (by decide) (by decide)
    [[[]], [strCat]] (by decide) strCat (by decide) (by decide)

/-- Claim C3 counterexample: the twitch variant wraps the filtered matches in
`list(set(...))`, so the presentation order is the set's enumeration order,
not descending score order.  `pySetRev` is a legitimate set enumeration
(duplicate-free, same members), and under it the two suggestions scoring 100
and 80 come out as `[bb, aa]` — ascending, refuting the claimed descending
presentation. -/
theorem C3_counterexample : ¬C3Statement := by
  intro h
  have h2 := (h pySetRev pySetRev_spec cexScorer strQ [strAA, strBB]).2.2.2
  have he : suggestMain pySetRev cexScorer strQ [strAA, strBB] = [strBB, strAA] := by
    decide
  rw [he] at h2
  have h3 := (List.pairwise_cons.mp h2).1 strAA (List.mem_singleton.mpr rfl)
  have e1 : cexScorer strQ strAA = 100 := by decide
  have e2 : cexScorer strQ strBB = 80 := by decide
  rw [e1, e2] at h3
  omega

/-- Claim C3 amended: in both variants the suggestion step returns only keys
scoring strictly above 75, truncated to at most 5, duplicate-free (for the
twitch variant by the set wrapper; for the discord variant whenever the key
universe is duplicate-free, which holds for the built cache's keys); the
discord variant additionally presents suggestions in descending score order
with ties in first-seen scorer order (the underlying sort is stable), while
the twitch variant's presentation order after `list(set(...))` is
unspecified. -/
theorem C3_amended (f : List Str → List Str) (hf : IsPySetEnum f)
    (scorer : Str → Str → Nat) (q : Str) (keys : List Str) :
    (∀ s ∈ suggestMain f scorer q keys, 75 < scorer q s) ∧
    (suggestMain f scorer q keys).length ≤ 5 ∧
    (suggestMain f scorer q keys).Nodup ∧
    (∀ s ∈ suggestSc scorer q keys, 75 < scorer q s) ∧
    (suggestSc scorer q keys).length ≤ 5 ∧
    (suggestSc scorer q keys).Pairwise (fun a b => scorer q b ≤ scorer q a) ∧
    (keys.Nodup → (suggestSc scorer q keys).Nodup) ∧
    (∀ sheets : List Worksheet,
      (suggestSc scorer q ((buildCache sheets).map Prod.fst)).Nodup) ∧
    (∀ n, (sortDesc (scored scorer q keys)).filter (fun p => p.2 == n)
        = (scored scorer q keys).filter (fun p => p.2 == n)) := by
  have heq : suggestMain f scorer q keys = f (suggestSc scorer q keys) := rfl
  have hmem : ∀ s, s ∈ suggestMain f scorer q keys ↔ s ∈ suggestSc scorer q keys := by
    intro s
    rw [heq]
    exact (hf _).2 s
  refine ⟨?_, ?_, ?_, ?_, ?_, ?_, ?_, ?_, ?_⟩
  · intro s hs
    exact (suggestSc_mem ((hmem s).mp hs)).2
  · have hnd : (suggestMain f scorer q keys).Nodup := heq ▸ (hf _).1
    have hsub : suggestMain f scorer q keys ⊆ suggestSc scorer q keys :=
      fun s hs => (hmem s).mp hs
    calc (suggestMain f scorer q keys).length
        ≤ (suggestSc scorer q keys).length := (hnd.subperm hsub).length_le
      _ ≤ 5 := suggestSc_length scorer q keys
  · exact heq ▸ (hf _).1
  · intro s hs
    exact (suggestSc_mem hs).2
  · exact suggestSc_length scorer q keys
  · exact suggestSc_pairwise scorer q keys
  · exact fun h => suggestSc_nodup h
  · intro sheets
    exact suggestSc_nodup (buildCache_keys_nodup sheets)
  · intro n
    exact sortDesc_filter _ n

/-- Witness of C3 amended at a concrete enumeration, scorer and universe. -/
theorem C3_witness :
    IsPySetEnum pySetRev ∧
    (suggestMain pySetRev cexScorer strQ [strAA, strBB]).length ≤ 5 ∧
    (suggestSc cexScorer strQ [strAA, strBB]).Nodup := by
  refine ⟨pySetRev_spec, ?_, ?_⟩
  · exact (C3_amended pySetRev pySetRev_spec cexScorer strQ [strAA, strBB]).2.1
  · exact (C3_amended pySetRev pySetRev_spec cexScorer strQ
      [strAA, strBB]).2.2.2.2.2.2.1 (by decide)

/-- Claim C4 counterexample: the twitch `find` has no loading check at all —
before any successful build (empty cache, no villager files), a non-empty,
non-blocked query is answered with the not-found reply, not a
database-loading indication (only the separate `status` command reports
loading in that variant). -/
theorem C4_counterexample :
    (mainFind [] none true (.ok []) [] strU 0 pySetRev cexScorer strCat).1
      = MainReply.notFound strCat := by
  decide

/-- Claim C4 amended: the discord variant's `find` answers every non-empty
query on an empty cache with the loading reply; the twitch variant's `find`
performs the search anyway, and with an empty cache and no villager data a
non-empty, non-blocked query receives the not-found reply. -/
theorem C4_amended :
    (∀ (scorer : Str → Str → Nat) (item : Str), item ≠ [] →
      scFind [] scorer (some item) = ScReply.loading) ∧
    (∀ (setEnum : List Str → List Str) (scorer : Str → Str → Nat)
        (cds : List (Str × Int)) (u : Str) (now : Int) (item : Str),
      IsPySetEnum setEnum → item ≠ [] → (check_cooldown cds u now 3).1 = false →
      (mainFind [] none true (.ok []) cds u now setEnum scorer item).1
        = MainReply.notFound (pyStrip (pyLower item))) := by
  constructor
  · intro scorer item hitem
    rw [scFind]
    (try dsimp only)
    rw [if_neg hitem, if_pos rfl]
  · intro setEnum scorer cds u now item hset hitem hcd
    have hnil : setEnum [] = [] := IsPySetEnum_nil hset
    rw [mainFind, if_neg hitem]
    (try dsimp only)
    rw [hcd, if_neg Bool.false_ne_true]
    simp only [alistLookup, Option.getD_none, ne_eq, not_true_eq_false, if_false,
      List.append_nil, List.map_nil, suggestMain, extract, scored, sortDesc,
      List.foldr_nil, List.take_nil, List.filter_nil, hnil]
    simp [get_villagers, rootFalsy, scanDirs, buildVillagers, suggestMain, extract,
      scored, sortDesc, hnil, alistLookup]

/-- Witness of C4 amended at concrete states for both variants. -/
theorem C4_witness :
    scFind [] cexScorer (some strCat) = ScReply.loading ∧
    (mainFind [] none true (.ok []) [] strU 5 pySetRev cexScorer strCat).1
      = MainReply.notFound (pyStrip (pyLower strCat)) := by
  constructor
  · exact C4_amended.1 cexScorer strCat (by decide)
  · exact C4_amended.2 pySetRev cexScorer [] strU 5 strCat pySetRev_spec
      (by decide) (by decide)

/-- Witness of C10 at a concrete blocked state. -/
theorem C10_witness :
    mainFind [] none true (.ok []) [(strU, 0)] strU 1 pySetRev cexScorer []
      = (.usage, [(strU, 0)]) ∧
    mainFind [] none true (.ok []) [(strU, 0)] strU 1 pySetRev cexScorer strCat
      = (.silent, [(strU, 0)]) := by
  have h := C10_empty_before_cooldown [] none true (.ok []) [(strU, 0)] strU 1
    pySetRev cexScorer
  exact ⟨h.1, h.2 strCat (by decide) (by decide)⟩

end Kuyacho
